import Mathlib

/-
Verification of the ledger storage and aggregation module of the Spending
Tracker application (file spend_tracker_pyqt_final.py).

Shallow embedding notes.
* The SQLite table `entries` is modelled as a list of `Entry` records together
  with the next AUTOINCREMENT rowid (`Store`).
* Column values: `dt`, `tm`, `category`, `description` are strings (with `tm`
  nullable, hence `Option String`); `amount` (SQLite REAL, Python float) is
  modelled as an exact rational number, so the `Store` carries the rows whose
  amounts are finite; IEEE rounding is outside the model.  Python float(text)
  is modelled in full by `pyFloat`, whose results distinguish finite values,
  the infinities and NaN; the boundary handlers over non-finite parses are
  modelled at the outcome level (`AddOutcome`, `UpdateOutcome`), since a row
  holding an IEEE infinity has no Rat-amount representation.
* SQLite compares TEXT with the BINARY collation (bytewise).  All values the
  program stores are ASCII, where bytewise comparison coincides with the
  code-point comparison `strLeB` defined below.  `date(dt)` is the identity on
  well-formed `YYYY-MM-DD` strings, and these sort the same lexically and
  calendar-wise, so the model compares the stored `dt` strings directly.
* `DB.fetch` runs `SELECT ... WHERE ... ORDER BY date(dt) DESC,
  ifnull(tm, :m) DESC, id DESC` (:m = "00:00"); the model filters the row list
  and sorts it with the corresponding key (`rowLe`).  An SQL ORDER BY whose
  key includes the unique `id` determines the output order completely, so any
  sort realises it; the model uses `List.insertionSort`.
* Python truthiness in `if dt_from:` etc. is modelled by treating `none` and
  `some ""` alike (`dfPass`, `dtPass`, `catPass`).
-/

/-- Row of the `entries` table: columns id, dt (date string), tm (nullable
time string), category, description, amount. -/
structure Entry where
  id : Nat
  dt : String
  tm : Option String
  category : String
  description : String
  amount : Rat
deriving Repr, DecidableEq

/-- State of the database: current rows plus the next AUTOINCREMENT rowid
(AUTOINCREMENT never reuses an id, even after deletion). -/
structure Store where
  rows : List Entry
  nextId : Nat
deriving Repr, DecidableEq

/-- Bytewise (code point) comparison of strings as lists of characters; this
is the order SQLite BINARY collation gives on the ASCII strings the program
stores. -/
def strLeB : List Char → List Char → Bool
  | [], _ => true
  | _ :: _, [] => false
  | c :: cs, d :: ds =>
    if c.toNat < d.toNat then true
    else if d.toNat < c.toNat then false
    else strLeB cs ds

/-- The sort key `ifnull(tm, :m)` with :m = "00:00" used by `DB.fetch`. -/
def tmKey (e : Entry) : String := e.tm.getD "00:00"

/-- Boolean comparison realising `ORDER BY date(dt) DESC, ifnull(tm, :m) DESC,
id DESC`: `rowLe a b` holds when row `a` may appear no later than row `b`. -/
def rowLe (a b : Entry) : Bool :=
  if a.dt = b.dt then
    if tmKey a = tmKey b then decide (b.id ≤ a.id)
    else strLeB (tmKey b).data (tmKey a).data
  else strLeB b.dt.data a.dt.data

/-- Propositional form of `rowLe`, used as the sorting relation. -/
def RowLE (a b : Entry) : Prop := rowLe a b = true

instance : DecidableRel RowLE :=
  fun a b => inferInstanceAs (Decidable (rowLe a b = true))

/-- Ascending lexical order on category names (`ORDER BY category ASC`). -/
def CatLE (a b : String) : Prop := strLeB a.data b.data = true

instance : DecidableRel CatLE :=
  fun a b => inferInstanceAs (Decidable (strLeB a.data b.data = true))

/-- Date lower bound test of `DB.fetch`: the condition
`date(dt) >= date(dt_from)` is added only when `dt_from` is truthy
(neither None nor the empty string). -/
def dfPass (dt_from : Option String) (e : Entry) : Bool :=
  match dt_from with
  | none => true
  | some s => if s = "" then true else strLeB s.data e.dt.data

/-- Date upper bound test of `DB.fetch`: the condition
`date(dt) <= date(dt_to)` is added only when `dt_to` is truthy. -/
def dtPass (dt_to : Option String) (e : Entry) : Bool :=
  match dt_to with
  | none => true
  | some s => if s = "" then true else strLeB e.dt.data s.data

/-- Category test of `DB.fetch`: the condition `category = ?` is added only
when the argument is truthy and differs from the sentinel "All". -/
def catPass (category : Option String) (e : Entry) : Bool :=
  match category with
  | none => true
  | some s =>
    if s = "" then true
    else if s = "All" then true
    else decide (e.category = s)

/-- Conjunction of the three optional WHERE conditions of `DB.fetch`. -/
def keepRow (dt_from dt_to category : Option String) (e : Entry) : Bool :=
  dfPass dt_from e && dtPass dt_to e && catPass category e

/-- DB.add: INSERT the row and return the fresh rowid (cur.lastrowid). -/
def DB.add (st : Store) (dt : String) (tm : Option String)
    (category description : String) (amount : Rat) : Store × Nat :=
  let e : Entry := ⟨st.nextId, dt, tm, category, description, amount⟩
  (⟨st.rows ++ [e], st.nextId + 1⟩, st.nextId)

/-- DB.update: UPDATE entries SET ... WHERE id = entry_id (affects zero rows
when no row has that id). -/
def DB.update (st : Store) (entry_id : Nat) (dt : String) (tm : Option String)
    (category description : String) (amount : Rat) : Store :=
  ⟨st.rows.map (fun e =>
      if e.id = entry_id then ⟨e.id, dt, tm, category, description, amount⟩
      else e),
    st.nextId⟩

/-- DB.delete: DELETE FROM entries WHERE id = entry_id (no-op when no row has
that id). -/
def DB.delete (st : Store) (entry_id : Nat) : Store :=
  ⟨st.rows.filter (fun e => !decide (e.id = entry_id)), st.nextId⟩

/-- DB.fetch: SELECT with the three optional filters, ordered by
date(dt) DESC, ifnull(tm, :m) DESC, id DESC. -/
def DB.fetch (st : Store) (dt_from dt_to category : Option String) :
    List Entry :=
  List.insertionSort RowLE (st.rows.filter (keepRow dt_from dt_to category))

/-- Sum of the amount column over a list of rows. -/
def sumAmt (l : List Entry) : Rat := (l.map Entry.amount).sum

/-- DB.totals: over the rows `DB.fetch` returns for the same filters, income
sums the amounts that are >= 0, expense sums those that are < 0, and the
third component is income + expense. -/
def DB.totals (st : Store) (dt_from dt_to category : Option String) :
    Rat × Rat × Rat :=
  let rows := DB.fetch st dt_from dt_to category
  let income := sumAmt (rows.filter (fun e => decide ((0:Rat) ≤ e.amount)))
  let expense := sumAmt (rows.filter (fun e => decide (e.amount < 0)))
  (income, expense, income + expense)

/-- DB.by_category: SELECT category, SUM(amount) with only the date filters,
GROUP BY category ORDER BY category ASC.  The category argument is accepted
and ignored, as in the source. -/
def DB.by_category (st : Store) (dt_from dt_to _category : Option String) :
    List (String × Rat) :=
  let rows := st.rows.filter (fun e => dfPass dt_from e && dtPass dt_to e)
  let cats := List.insertionSort CatLE (rows.map Entry.category).dedup
  cats.map (fun c => (c, sumAmt (rows.filter (fun e => decide (e.category = c)))))

/-- Row of the pre-`tm` schema (a table created before the time column was
added). -/
structure EntryOld where
  id : Nat
  dt : String
  category : String
  description : String
  amount : Rat
deriving Repr, DecidableEq

/-- Upgrading a pre-`tm` row: ALTER TABLE ... ADD COLUMN tm TEXT leaves every
existing row in place with NULL in the new column. -/
def upgradeOld (e : EntryOld) : Entry :=
  ⟨e.id, e.dt, none, e.category, e.description, e.amount⟩

/-- The three states the entries table can be in when the DB is opened:
no table yet, a table on the old schema without tm, or the current schema. -/
inductive TableState where
  | absent
  | oldSchema (rows : List EntryOld)
  | newSchema (rows : List Entry)

/-- Rows after DB.__init__: CREATE TABLE IF NOT EXISTS (creates an empty
table only when absent) followed by _maybe_add_time_column (adds tm via
ALTER TABLE when the PRAGMA table_info listing lacks it; existing rows keep
all their values and get NULL for tm). -/
def initEntries : TableState → List Entry
  | .absent => []
  | .oldSchema rows => rows.map upgradeOld
  | .newSchema rows => rows

/-- Numeric value of a list of decimal digit characters. -/
def digitsToNat (cs : List Char) : Nat :=
  cs.foldl (fun acc c => acc * 10 + (c.toNat - 48)) 0

/-- The four kinds of value Python float(text) can produce: a finite value
(modelled as its exact rational), the two infinities, or NaN. -/
inductive PyVal where
  | finite (q : Rat)
  | pinf
  | ninf
  | nan
deriving Repr, DecidableEq

/-- ASCII whitespace that float(text) strips from both ends. -/
def isSpaceCh (c : Char) : Bool :=
  decide (c = ' ') || decide (c = '\t') || decide (c = '\n') ||
    decide (c = '\r') || decide (c.toNat = 11) || decide (c.toNat = 12)

/-- Removes leading and trailing whitespace. -/
def stripWs (cs : List Char) : List Char :=
  ((cs.dropWhile isSpaceCh).reverse.dropWhile isSpaceCh).reverse

/-- State machine for a digit run with PEP 515 underscore separators; the
flag records whether the previous character was a digit, so an underscore
is legal only between two digits. -/
def digitRunAux : Bool → List Char → Bool
  | prev, [] => prev
  | prev, c :: cs =>
    if c.isDigit then digitRunAux true cs
    else if c = '_' then prev && digitRunAux false cs
    else false

/-- A nonempty digit run that starts and ends with a digit and uses
underscores only singly between digits, as float(text) accepts. -/
def validDigitRun (cs : List Char) : Bool := digitRunAux false cs

/-- Numeric value of a digit run, ignoring underscore separators. -/
def digitsVal (cs : List Char) : Nat := digitsToNat (cs.filter Char.isDigit)

/-- Exact value of mantissa digits m with fracLen fractional digits under a
decimal exponent: m times 10 ^ (ex - fracLen).  When the result is an
integer it is built by an integer cast, without rational normalisation, so
concrete instances reduce inside the kernel. -/
def decScaled (m : Nat) (fracLen : Nat) (ex : Int) : Rat :=
  let sh : Int := ex - (fracLen : Int)
  if 0 ≤ sh then (((m : Int) * (10:Int) ^ sh.toNat : Int) : Rat)
  else ((m : Nat) : Rat) / ((10:Rat) ^ (-sh).toNat)

/-- The numeric (non-special) forms float(text) accepts, after sign
removal: optional integer digits, optional decimal point with optional
fraction digits (at least one mantissa digit in total), and an optional
exponent, all with PEP 515 underscore separators.  The result is the exact
decimal value. -/
def pyNumeric (cs : List Char) : Option Rat :=
  let mantissa := cs.takeWhile (fun c => !(decide (c = 'e') || decide (c = 'E')))
  let expChars := cs.dropWhile (fun c => !(decide (c = 'e') || decide (c = 'E')))
  let ip := mantissa.takeWhile (fun c => !decide (c = '.'))
  let f := (mantissa.dropWhile (fun c => !decide (c = '.'))).drop 1
  let mantissaOk :=
    (ip.isEmpty || validDigitRun ip) && (f.isEmpty || validDigitRun f) &&
      !(ip.isEmpty && f.isEmpty)
  let expVal : Option Int :=
    match expChars with
    | [] => some 0
    | _ :: '+' :: r =>
      if validDigitRun r then some ((digitsVal r : Nat) : Int) else none
    | _ :: '-' :: r =>
      if validDigitRun r then some (-((digitsVal r : Nat) : Int)) else none
    | _ :: r =>
      if validDigitRun r then some ((digitsVal r : Nat) : Int) else none
  match expVal with
  | none => none
  | some ex =>
    if mantissaOk then
      some (decScaled (digitsVal (ip ++ f)) ((f.filter Char.isDigit).length) ex)
    else none

/-- Models the Python float(text) call in SpendingApp._parse_amount, for
ASCII inputs: after stripping surrounding whitespace and reading an
optional sign, float accepts the case-insensitive literals inf, infinity
and nan, and otherwise the decimal forms of `pyNumeric`.  Returns none
exactly when float(text) raises ValueError on such inputs.  Finite values
are kept as exact decimals: IEEE rounding to the nearest double and the
overflow of huge exponents to infinity are outside the model, as are
non-ASCII digits. -/
def pyFloat (s : String) : Option PyVal :=
  let cs := stripWs s.data
  let neg : Bool := match cs with | '-' :: _ => true | _ => false
  let rest := match cs with
    | '+' :: r => r
    | '-' :: r => r
    | r => r
  let low := rest.map Char.toLower
  if low = "inf".data || low = "infinity".data then
    some (if neg then PyVal.ninf else PyVal.pinf)
  else if low = "nan".data then some PyVal.nan
  else
    match pyNumeric rest with
    | none => none
    | some q => some (PyVal.finite (if neg then -q else q))

/-- The finite-value restriction of `pyFloat`: the parsed amount when
float(text) succeeds with a finite value, none when it fails or produces a
non-finite value.  `onAdd` and `onUpdate` below are stated over this
restriction, so they model on_add and on_update only on amount texts that
float() rejects or parses to a finite value; `onAddFull` and
`onUpdateFull` cover every input, including the non-finite parses. -/
def parsePyFloat (s : String) : Option Rat :=
  match pyFloat s with
  | some (PyVal.finite q) => some q
  | _ => none

/-- The message _parse_amount raises with (surfaced by the Invalid input
dialog in on_add and on_update). -/
def invalidAmountMsg : String :=
  "Amount must be a number (use negative for expenses)."

/-- SpendingApp.on_add, restricted to the store effect and to amount texts
that float() rejects or parses to a finite value (the fragment where the
Rat-amount store represents the written row; `onAddFull` covers the rest):
on ValueError no database call happens and the error is reported,
otherwise DB.add runs. -/
def onAdd (st : Store) (dt : String) (tm : Option String)
    (category description amountText : String) :
    Except String (Store × Nat) :=
  match parsePyFloat amountText with
  | none => .error invalidAmountMsg
  | some amt => .ok (DB.add st dt tm category description amt)

/-- SpendingApp.on_update, restricted like `onAdd` (see `onUpdateFull` for
the full model). -/
def onUpdate (st : Store) (entry_id : Nat) (dt : String) (tm : Option String)
    (category description amountText : String) : Except String Store :=
  match parsePyFloat amountText with
  | none => .error invalidAmountMsg
  | some amt => .ok (DB.update st entry_id dt tm category description amt)

/-- The store the caller holds after on_add: unchanged when the call
reported an error. -/
def storeAfterAdd (st : Store) (dt : String) (tm : Option String)
    (category description amountText : String) : Store :=
  match onAdd st dt tm category description amountText with
  | .error _ => st
  | .ok (st2, _) => st2

/-- The store the caller holds after on_update: unchanged when the call
reported an error. -/
def storeAfterUpdate (st : Store) (entry_id : Nat) (dt : String)
    (tm : Option String) (category description amountText : String) : Store :=
  match onUpdate st entry_id dt tm category description amountText with
  | .error _ => st
  | .ok st2 => st2

/-- True when an Except value carries a result rather than an error. -/
def isOkB {ε α : Type} : Except ε α → Bool
  | .ok _ => true
  | .error _ => false

/-- Observable outcome of on_add over every float(text) result.
invalidInput: _parse_amount raised ValueError, no database call, store
unchanged.  notNullViolation: the parse produced NaN; sqlite3 binds a NaN
double as NULL, the INSERT hits the NOT NULL constraint on amount and
raises IntegrityError, caught by the same handler — dialog shown, no row
written.  inserted: a finite amount was written, with the new store and
rowid.  insertedInf: an infinite amount parsed and the INSERT succeeded (a
REAL column stores IEEE infinities), so a row was written whose amount the
Rat-amount store cannot carry; the flag records a negative infinity. -/
inductive AddOutcome where
  | invalidInput (msg : String)
  | notNullViolation
  | inserted (st : Store) (rowid : Nat)
  | insertedInf (neg : Bool)
deriving Repr, DecidableEq

/-- Observable outcome of on_update over every float(text) result; the
non-finite cases apply only when a row with the given id exists, since an
UPDATE matching zero rows touches nothing and raises nothing. -/
inductive UpdateOutcome where
  | invalidInput (msg : String)
  | notNullViolation
  | updated (st : Store)
  | updatedInf (neg : Bool)
deriving Repr, DecidableEq

/-- SpendingApp.on_add, restricted to the store effect, over the full
float(text) model `pyFloat`. -/
def onAddFull (st : Store) (dt : String) (tm : Option String)
    (category description amountText : String) : AddOutcome :=
  match pyFloat amountText with
  | none => .invalidInput invalidAmountMsg
  | some PyVal.nan => .notNullViolation
  | some PyVal.pinf => .insertedInf false
  | some PyVal.ninf => .insertedInf true
  | some (PyVal.finite q) =>
    .inserted (DB.add st dt tm category description q).1
      (DB.add st dt tm category description q).2

/-- SpendingApp.on_update, restricted to the store effect, over the full
float(text) model `pyFloat`. -/
def onUpdateFull (st : Store) (entry_id : Nat) (dt : String)
    (tm : Option String) (category description amountText : String) :
    UpdateOutcome :=
  match pyFloat amountText with
  | none => .invalidInput invalidAmountMsg
  | some PyVal.nan =>
    if st.rows.any (fun e => decide (e.id = entry_id)) then .notNullViolation
    else .updated st
  | some PyVal.pinf =>
    if st.rows.any (fun e => decide (e.id = entry_id)) then .updatedInf false
    else .updated st
  | some PyVal.ninf =>
    if st.rows.any (fun e => decide (e.id = entry_id)) then .updatedInf true
    else .updated st
  | some (PyVal.finite q) =>
    .updated (DB.update st entry_id dt tm category description q)

/-- Following the specification text for claim C1: an absent time is
earlier than any present time; present times compare as strings. -/
def specTimeEarlierB : Option String → Option String → Bool
  | none, none => false
  | none, some _ => true
  | some _, none => false
  | some x, some y => strLeB x.data y.data && !decide (x = y)

/-- Following the specification text for claim C1: row `a` strictly precedes
row `b` when its date is later, or dates agree and its time is later (absent
earliest), or dates and times agree and its id is larger. -/
def specPrecedesB (a b : Entry) : Bool :=
  (strLeB b.dt.data a.dt.data && !decide (b.dt = a.dt)) ||
  (decide (a.dt = b.dt) &&
    (specTimeEarlierB b.tm a.tm ||
      (decide (a.tm = b.tm) && decide (b.id < a.id))))

/-- Following the specification text for claim C1: the whole list is in the
strict descending order it describes. -/
def specOrderedB : List Entry → Bool
  | [] => true
  | [_] => true
  | a :: b :: rest => specPrecedesB a b && specOrderedB (b :: rest)

/-- Empty freshly created store. -/
def emptyStore : Store := ⟨[], 1⟩

/-- Counterexample data for claim C1: same date, one row timed 00:00 with the
smaller id, one row without a time with the larger id. -/
def cxA : Entry := ⟨1, "2024-01-01", some "00:00", "Food", "", 1⟩

/-- Second counterexample row for claim C1. -/
def cxB : Entry := ⟨2, "2024-01-01", none, "Food", "", 1⟩

/-- Counterexample store for claim C1. -/
def cxStore : Store := ⟨[cxA, cxB], 3⟩

/-- Example row of the ordering example: 2024-01-01 08:00. -/
def exE1 : Entry := ⟨1, "2024-01-01", some "08:00", "Food", "", 1⟩

/-- Example row of the ordering example: 2024-01-01, no time. -/
def exE2 : Entry := ⟨2, "2024-01-01", none, "Food", "", 1⟩

/-- Example row of the ordering example: 2024-01-02 12:00. -/
def exE3 : Entry := ⟨3, "2024-01-02", some "12:00", "Food", "", 1⟩

/-- Store holding the three rows of the ordering example. -/
def exStore : Store := ⟨[exE1, exE2, exE3], 4⟩

/-- Concrete pre-`tm` row used to instantiate the migration claim. -/
def oldRow : EntryOld := ⟨7, "2023-12-31", "Rent", "December rent", -1200⟩

/-- Characters with equal code points are equal. -/
theorem char_toNat_inj {c d : Char} (h : c.toNat = d.toNat) : c = d :=
  Char.ext (UInt32.ext h)

/-- Strings with equal character lists are equal. -/
theorem string_eq_of_data_eq {x y : String} (h : x.data = y.data) : x = y := by
  cases x; cases y; exact congrArg String.mk h

/-- The bytewise string order is total. -/
theorem strLeB_total (a b : List Char) :
    strLeB a b = true ∨ strLeB b a = true := by
  induction a generalizing b with
  | nil => left; rfl
  | cons c cs ih =>
    cases b with
    | nil => right; rfl
    | cons d ds =>
      by_cases h1 : c.toNat < d.toNat
      · left; simp [strLeB, h1]
      · by_cases h2 : d.toNat < c.toNat
        · right; simp [strLeB, h2]
        · rcases ih ds with h | h
          · left; simp [strLeB, h1, h2, h]
          · right; simp [strLeB, h1, h2, h]

/-- The bytewise string order is transitive. -/
theorem strLeB_trans {a b c : List Char} (h1 : strLeB a b = true)
    (h2 : strLeB b c = true) : strLeB a c = true := by
  induction a generalizing b c with
  | nil => rfl
  | cons x xs ih =>
    cases b with
    | nil => simp [strLeB] at h1
    | cons y ys =>
      cases c with
      | nil => simp [strLeB] at h2
      | cons z zs =>
        simp only [strLeB] at h1 h2 ⊢
        by_cases hxy : x.toNat < y.toNat
        · by_cases hyz : y.toNat < z.toNat
          · simp [show x.toNat < z.toNat by omega]
          · by_cases hzy : z.toNat < y.toNat
            · simp [hyz, hzy] at h2
            · simp [show x.toNat < z.toNat by omega]
        · by_cases hyx : y.toNat < x.toNat
          · simp [hxy, hyx] at h1
          · simp only [if_neg hxy, if_neg hyx] at h1
            by_cases hyz : y.toNat < z.toNat
            · simp [show x.toNat < z.toNat by omega]
            · by_cases hzy : z.toNat < y.toNat
              · simp [hyz, hzy] at h2
              · simp only [if_neg hyz, if_neg hzy] at h2
                simp only [if_neg (show ¬ x.toNat < z.toNat by omega),
                  if_neg (show ¬ z.toNat < x.toNat by omega)]
                exact ih h1 h2

/-- The bytewise string order is antisymmetric. -/
theorem strLeB_antisymm {a b : List Char} (h1 : strLeB a b = true)
    (h2 : strLeB b a = true) : a = b := by
  induction a generalizing b with
  | nil =>
    cases b with
    | nil => rfl
    | cons d ds => simp [strLeB] at h2
  | cons c cs ih =>
    cases b with
    | nil => simp [strLeB] at h1
    | cons d ds =>
      by_cases h : c.toNat < d.toNat
      · simp [strLeB, h, show ¬ d.toNat < c.toNat by omega] at h2
      · by_cases h' : d.toNat < c.toNat
        · simp [strLeB, h, h'] at h1
        · simp only [strLeB, if_neg h, if_neg h'] at h1 h2
          rw [char_toNat_inj (show c.toNat = d.toNat by omega), ih h1 h2]

/-- Strings relating both ways in the bytewise order are equal. -/
theorem strLeB_str_antisymm {x y : String}
    (h1 : strLeB x.data y.data = true) (h2 : strLeB y.data x.data = true) :
    x = y :=
  string_eq_of_data_eq (strLeB_antisymm h1 h2)

/-- The fetch ordering is total. -/
theorem rowLe_total (a b : Entry) : rowLe a b = true ∨ rowLe b a = true := by
  unfold rowLe
  by_cases hdt : a.dt = b.dt
  · rw [if_pos hdt, if_pos hdt.symm]
    by_cases htm : tmKey a = tmKey b
    · rw [if_pos htm, if_pos htm.symm]
      rcases Nat.le_total a.id b.id with h | h
      · right; simpa using h
      · left; simpa using h
    · rw [if_neg htm, if_neg (fun h => htm h.symm)]
      exact (strLeB_total _ _).symm
  · rw [if_neg hdt, if_neg (fun h => hdt h.symm)]
    exact (strLeB_total _ _).symm

/-- The fetch ordering is transitive. -/
theorem rowLe_trans {a b c : Entry} (h1 : rowLe a b = true)
    (h2 : rowLe b c = true) : rowLe a c = true := by
  unfold rowLe at h1 h2 ⊢
  by_cases hab : a.dt = b.dt
  · by_cases hbc : b.dt = c.dt
    · have hac : a.dt = c.dt := hab.trans hbc
      rw [if_pos hab] at h1
      rw [if_pos hbc] at h2
      rw [if_pos hac]
      by_cases tab : tmKey a = tmKey b
      · by_cases tbc : tmKey b = tmKey c
        · have tac : tmKey a = tmKey c := tab.trans tbc
          rw [if_pos tab] at h1
          rw [if_pos tbc] at h2
          rw [if_pos tac]
          simp only [decide_eq_true_eq] at h1 h2 ⊢
          omega
        · have tac : ¬ tmKey a = tmKey c := fun h => tbc (tab.symm.trans h)
          rw [if_neg tbc] at h2
          rw [if_neg tac, tab]
          exact h2
      · by_cases tbc : tmKey b = tmKey c
        · have tac : ¬ tmKey a = tmKey c := fun h => tab (h.trans tbc.symm)
          rw [if_neg tab] at h1
          rw [if_neg tac, ← tbc]
          exact h1
        · rw [if_neg tab] at h1
          rw [if_neg tbc] at h2
          by_cases tac : tmKey a = tmKey c
          · have h2a : strLeB (tmKey a).data (tmKey b).data = true := by
              rw [tac]; exact h2
            exact absurd ((strLeB_str_antisymm h1 h2a).trans tac) tbc
          · rw [if_neg tac]
            exact strLeB_trans h2 h1
    · have hac : ¬ a.dt = c.dt := fun h => hbc (hab.symm.trans h)
      rw [if_neg hbc] at h2
      rw [if_neg hac, hab]
      exact h2
  · by_cases hbc : b.dt = c.dt
    · have hac : ¬ a.dt = c.dt := fun h => hab (h.trans hbc.symm)
      rw [if_neg hab] at h1
      rw [if_neg hac, ← hbc]
      exact h1
    · rw [if_neg hab] at h1
      rw [if_neg hbc] at h2
      by_cases hac : a.dt = c.dt
      · have h2a : strLeB a.dt.data b.dt.data = true := by
          rw [hac]; exact h2
        exact absurd ((strLeB_str_antisymm h1 h2a).trans hac) hbc
      · rw [if_neg hac]
        exact strLeB_trans h2 h1

/-- Amount sum of a cons cell. -/
theorem sumAmt_cons (e : Entry) (l : List Entry) :
    sumAmt (e :: l) = e.amount + sumAmt l := by
  simp [sumAmt]

/-- Splitting the amount sum along a Boolean predicate on rows. -/
theorem sumAmt_filter_partition (p : Entry → Bool) (l : List Entry) :
    sumAmt (l.filter p) + sumAmt (l.filter (fun e => !p e)) = sumAmt l := by
  induction l with
  | nil => simp [sumAmt]
  | cons a l ih =>
    cases hp : p a
    · simp only [List.filter_cons, hp, Bool.not_false, if_pos, if_neg,
        Bool.false_eq_true, ite_false, ite_true, sumAmt_cons]
      rw [← ih]; ring
    · simp only [List.filter_cons, hp, Bool.not_true, Bool.false_eq_true,
        ite_false, ite_true, sumAmt_cons]
      rw [← ih]; ring

/-- The rows selected as expenses are exactly the rows not selected as
income: for rationals, amount < 0 is the negation of 0 <= amount. -/
theorem filter_expense_eq (l : List Entry) :
    l.filter (fun e => decide (e.amount < 0)) =
      l.filter (fun e => !decide ((0:Rat) ≤ e.amount)) :=
  List.filter_congr (fun e _ => by
    by_cases h : (0:Rat) ≤ e.amount
    · simp [h, not_lt.mpr h]
    · simp [h, lt_of_not_ge h])

/-- Membership in a fetch result: the row is in the table and passes the
three optional filters. -/
theorem mem_fetch_iff {st : Store} {f t c : Option String} {e : Entry} :
    e ∈ DB.fetch st f t c ↔ e ∈ st.rows ∧ keepRow f t c e = true := by
  unfold DB.fetch
  rw [(List.perm_insertionSort RowLE _).mem_iff, List.mem_filter]

/-- Unfiltered fetch returns a permutation of the table rows. -/
theorem fetch_unfiltered_perm (st : Store) :
    (DB.fetch st none none none).Perm st.rows := by
  unfold DB.fetch
  rw [show st.rows.filter (keepRow none none none) = st.rows from
    List.filter_eq_self.mpr (fun a _ => rfl)]
  exact List.perm_insertionSort RowLE st.rows

/-- Characterisation of the date lower bound test. -/
theorem dfPass_iff (f : Option String) (e : Entry) :
    dfPass f e = true ↔
      ∀ s, f = some s → s ≠ "" → strLeB s.data e.dt.data = true := by
  cases f with
  | none => simp [dfPass]
  | some s => by_cases hs : s = "" <;> simp [dfPass, hs]

/-- Characterisation of the date upper bound test. -/
theorem dtPass_iff (t : Option String) (e : Entry) :
    dtPass t e = true ↔
      ∀ s, t = some s → s ≠ "" → strLeB e.dt.data s.data = true := by
  cases t with
  | none => simp [dtPass]
  | some s => by_cases hs : s = "" <;> simp [dtPass, hs]

/-- Characterisation of the category test. -/
theorem catPass_iff (c : Option String) (e : Entry) :
    catPass c e = true ↔
      ∀ s, c = some s → s ≠ "" → s ≠ "All" → e.category = s := by
  cases c with
  | none => simp [catPass]
  | some s =>
    by_cases hs : s = ""
    · simp [catPass, hs]
    · by_cases ha : s = "All"
      · simp [catPass, hs, ha]
      · simp [catPass, hs, ha]

/-- Characterisation of the conjunction of the three filters. -/
theorem keepRow_iff (f t c : Option String) (e : Entry) :
    keepRow f t c e = true ↔
      (∀ s, f = some s → s ≠ "" → strLeB s.data e.dt.data = true) ∧
      (∀ s, t = some s → s ≠ "" → strLeB e.dt.data s.data = true) ∧
      (∀ s, c = some s → s ≠ "" → s ≠ "All" → e.category = s) := by
  unfold keepRow
  rw [Bool.and_eq_true, Bool.and_eq_true, dfPass_iff, dtPass_iff, catPass_iff]
  tauto

/-- Summing per-category sums over a duplicate-free list of categories that
covers every row gives the total amount sum. -/
theorem sum_catGroups :
    ∀ (cats : List String) (rows : List Entry), cats.Nodup →
      (∀ r ∈ rows, r.category ∈ cats) →
      (cats.map (fun c2 =>
        sumAmt (rows.filter (fun e => decide (e.category = c2))))).sum
        = sumAmt rows := by
  intro cats
  induction cats with
  | nil =>
    intro rows _ hcov
    have hrows : rows = [] := by
      cases rows with
      | nil => rfl
      | cons r rs => exact absurd (hcov r (by simp)) (by simp)
    subst hrows
    simp [sumAmt]
  | cons c cs ih =>
    intro rows hnd hcov
    have hc : c ∉ cs := (List.nodup_cons.mp hnd).1
    have hnd2 : cs.Nodup := (List.nodup_cons.mp hnd).2
    have hmap :
        cs.map (fun c2 =>
          sumAmt (rows.filter (fun e => decide (e.category = c2)))) =
        cs.map (fun c2 =>
          sumAmt ((rows.filter (fun e => !decide (e.category = c))).filter
            (fun e => decide (e.category = c2)))) := by
      apply List.map_congr_left
      intro c2 hc2
      have hne : c2 ≠ c := fun h => hc (h ▸ hc2)
      congr 1
      rw [List.filter_filter]
      apply List.filter_congr
      intro e _
      by_cases he : e.category = c2
      · simp [he, hne]
      · simp [he]
    have hcov2 : ∀ r ∈ rows.filter (fun e => !decide (e.category = c)),
        r.category ∈ cs := by
      intro r hr
      have h1 := List.mem_filter.mp hr
      have h3 : ¬ r.category = c := by simpa using h1.2
      cases List.mem_cons.mp (hcov r h1.1) with
      | inl h => exact absurd h h3
      | inr h => exact h
    rw [List.map_cons, List.sum_cons, hmap,
      ih (rows.filter (fun e => !decide (e.category = c))) hnd2 hcov2]
    exact sumAmt_filter_partition (fun e => decide (e.category = c)) rows

/-- The balance component of totals is the amount sum of the fetch result. -/
theorem totals_balance (st : Store) (f t c : Option String) :
    (DB.totals st f t c).2.2 = sumAmt (DB.fetch st f t c) := by
  show sumAmt _ + sumAmt _ = _
  rw [filter_expense_eq]
  exact sumAmt_filter_partition _ _

/-- The empty string behaves as an absent date lower bound. -/
theorem dfPass_empty (e : Entry) : dfPass (some "") e = dfPass none e := by
  simp [dfPass]

/-- The empty string behaves as an absent date upper bound. -/
theorem dtPass_empty (e : Entry) : dtPass (some "") e = dtPass none e := by
  simp [dtPass]

/-- The empty string behaves as an absent category filter. -/
theorem catPass_empty (e : Entry) : catPass (some "") e = catPass none e := by
  simp [catPass]

/-- Fetch with an empty dt_from equals fetch without it. -/
theorem fetch_empty_from (st : Store) (t c : Option String) :
    DB.fetch st (some "") t c = DB.fetch st none t c := rfl

/-- Fetch with an empty dt_to equals fetch without it. -/
theorem fetch_empty_to (st : Store) (f c : Option String) :
    DB.fetch st f (some "") c = DB.fetch st f none c := rfl

/-- Fetch with an empty category equals fetch without it. -/
theorem fetch_empty_cat (st : Store) (f t : Option String) :
    DB.fetch st f t (some "") = DB.fetch st f t none := rfl

/-- Claim C1, as stated, is false on the code: the claimed ordering treats
an absent time as strictly earlier than any present time, but the query
key `ifnull(tm, :m)` (:m = "00:00") makes an absent time tie with an
explicit 00:00, and the tie is broken by id descending.  On a store holding
a row timed 00:00 with id 1 and a same-day row without a time with id 2,
fetch returns the untimed row first, which violates the claimed order. -/
theorem claim_C1_counterexample :
    DB.fetch cxStore none none none = [cxB, cxA] ∧
      specOrderedB (DB.fetch cxStore none none none) = false := by
  constructor
  · decide
  · decide

/-- Claim C1 (amended): every fetch result is ordered primarily by date
descending, then by time descending with an absent time treated as equal to
midnight 00:00 (so an untimed row ties with a row timed 00:00), and ties on
date and on that time key are broken by id descending — the order `RowLE`.
The concrete example still holds: entries dated 2024-01-01 08:00,
2024-01-01 without a time, and 2024-01-02 12:00 come back in the order
[2024-01-02, 2024-01-01 08:00, 2024-01-01 without a time]. -/
theorem claim_C1_amended :
    (∀ (st : Store) (f t c : Option String),
      List.Sorted RowLE (DB.fetch st f t c)) ∧
    DB.fetch exStore none none none = [exE3, exE1, exE2] := by
  constructor
  · intro st f t c
    haveI : IsTotal Entry RowLE := ⟨rowLe_total⟩
    haveI : IsTrans Entry RowLE := ⟨fun _ _ _ h1 h2 => rowLe_trans h1 h2⟩
    exact List.sorted_insertionSort RowLE _
  · decide

/-- Claim C2: totals returns (income, expense, income + expense), where
income sums the amounts that are at least 0 over exactly the rows fetch
returns for the same filters and expense sums the negative amounts with
their sign; the balance equals the amount sum of the fetch result, and an
empty fetch result gives (0, 0, 0). -/
theorem claim_C2 (st : Store) (f t c : Option String) :
    DB.totals st f t c =
      (sumAmt ((DB.fetch st f t c).filter
          (fun e => decide ((0:Rat) ≤ e.amount))),
        sumAmt ((DB.fetch st f t c).filter (fun e => decide (e.amount < 0))),
        sumAmt ((DB.fetch st f t c).filter
            (fun e => decide ((0:Rat) ≤ e.amount))) +
          sumAmt ((DB.fetch st f t c).filter
            (fun e => decide (e.amount < 0)))) ∧
    (DB.totals st f t c).2.2 = sumAmt (DB.fetch st f t c) ∧
    (DB.fetch st f t c = [] → DB.totals st f t c = (0, 0, 0)) := by
  refine ⟨rfl, totals_balance st f t c, ?_⟩
  intro h
  simp [DB.totals, h, sumAmt]

/-- Claim C3: after add on a store whose rows all have ids other than the
next rowid (the AUTOINCREMENT invariant), the unfiltered fetch result
contains exactly one row carrying the id that add returned, and that row
holds exactly the field values passed to add. -/
theorem claim_C3 (st : Store) (dt : String) (tm : Option String)
    (category description : String) (amount : Rat)
    (hfresh : ∀ e ∈ st.rows, e.id ≠ st.nextId) :
    (DB.add st dt tm category description amount).2 = st.nextId ∧
    (DB.fetch (DB.add st dt tm category description amount).1
        none none none).filter
        (fun e => decide
          (e.id = (DB.add st dt tm category description amount).2))
      = [⟨st.nextId, dt, tm, category, description, amount⟩] := by
  refine ⟨rfl, ?_⟩
  have hperm :=
    (fetch_unfiltered_perm
      (DB.add st dt tm category description amount).1).filter
      (fun e => decide (e.id = st.nextId))
  have h1 : List.filter (fun e => decide (e.id = st.nextId)) st.rows = [] :=
    List.filter_eq_nil_iff.mpr (fun a ha => by simpa using hfresh a ha)
  have h2 : List.filter (fun e => decide (e.id = st.nextId))
      [(⟨st.nextId, dt, tm, category, description, amount⟩ : Entry)]
      = [(⟨st.nextId, dt, tm, category, description, amount⟩ : Entry)] := by
    simp
  rw [show (DB.add st dt tm category description amount).1.rows =
      st.rows ++ [⟨st.nextId, dt, tm, category, description, amount⟩]
    from rfl, List.filter_append, h1, h2, List.nil_append] at hperm
  exact List.perm_singleton.mp hperm

/-- Witness for claim C3 at a concrete input. -/
theorem claim_C3_witness :
    (∀ e ∈ emptyStore.rows, e.id ≠ emptyStore.nextId) ∧
    ((DB.add emptyStore "2024-03-01" (some "09:00") "Income" "Paycheck"
        2000).2 = emptyStore.nextId ∧
      (DB.fetch (DB.add emptyStore "2024-03-01" (some "09:00") "Income"
          "Paycheck" 2000).1 none none none).filter
        (fun e => decide
          (e.id = (DB.add emptyStore "2024-03-01" (some "09:00") "Income"
            "Paycheck" 2000).2))
      = [⟨emptyStore.nextId, "2024-03-01", some "09:00", "Income",
          "Paycheck", 2000⟩]) :=
  ⟨by simp [emptyStore],
    claim_C3 emptyStore "2024-03-01" (some "09:00") "Income" "Paycheck" 2000
      (by simp [emptyStore])⟩

/-- Claim C4: a row is in the fetch result exactly when it is in the table
and passes each present filter — a present dt_from bounds the date from
below, a present dt_to bounds it from above (both inclusive), a present
category other than the sentinel "All" requires an exact match, and an
absent (or empty) filter excludes nothing. -/
theorem claim_C4 (st : Store) (f t c : Option String) (e : Entry) :
    e ∈ DB.fetch st f t c ↔
      e ∈ st.rows ∧
      (∀ s, f = some s → s ≠ "" → strLeB s.data e.dt.data = true) ∧
      (∀ s, t = some s → s ≠ "" → strLeB e.dt.data s.data = true) ∧
      (∀ s, c = some s → s ≠ "" → s ≠ "All" → e.category = s) := by
  rw [mem_fetch_iff, keepRow_iff]

/-- Claim C8: delete and update against an id that no row carries leave the
store exactly unchanged (and, being total functions, complete without
signalling an error). -/
theorem claim_C8 (st : Store) (entry_id : Nat) (dt : String)
    (tm : Option String) (category description : String) (amount : Rat)
    (hmiss : ∀ e ∈ st.rows, e.id ≠ entry_id) :
    DB.delete st entry_id = st ∧
    DB.update st entry_id dt tm category description amount = st := by
  obtain ⟨rows, nid⟩ := st
  constructor
  · unfold DB.delete
    congr 1
    exact List.filter_eq_self.mpr (fun a ha => by simpa using hmiss a ha)
  · unfold DB.update
    congr 1
    rw [List.map_congr_left (fun a ha => if_neg (hmiss a ha))]
    simp

/-- Witness for claim C8: deleting id 9999 on an empty store leaves it
empty, as does updating id 9999. -/
theorem claim_C8_witness :
    (∀ e ∈ emptyStore.rows, e.id ≠ 9999) ∧
    (DB.delete emptyStore 9999 = emptyStore ∧
      DB.update emptyStore 9999 "2024-01-01" none "Food" "" 1 = emptyStore) :=
  ⟨by simp [emptyStore],
    claim_C8 emptyStore 9999 "2024-01-01" none "Food" "" 1
      (by simp [emptyStore])⟩

/-- Claim C9: opening a store whose table lacks the tm column migrates it in
place — every pre-existing row stays retrievable (it appears in the
unfiltered fetch) with id, date, category, description and amount unchanged
and with no time — while opening a store that already has the full schema
changes nothing, and opening with no table creates an empty one. -/
theorem claim_C9 :
    (∀ (rows : List EntryOld) (n : Nat) (e : EntryOld), e ∈ rows →
      ∃ e2 ∈ DB.fetch ⟨initEntries (.oldSchema rows), n⟩ none none none,
        e2.id = e.id ∧ e2.dt = e.dt ∧ e2.tm = none ∧
        e2.category = e.category ∧ e2.description = e.description ∧
        e2.amount = e.amount) ∧
    (∀ rows : List Entry, initEntries (.newSchema rows) = rows) ∧
    initEntries .absent = [] := by
  refine ⟨?_, fun _ => rfl, rfl⟩
  intro rows n e he
  refine ⟨upgradeOld e, ?_, rfl, rfl, rfl, rfl, rfl, rfl⟩
  exact (fetch_unfiltered_perm ⟨initEntries (.oldSchema rows), n⟩).mem_iff.mpr
    (List.mem_map_of_mem upgradeOld he)

/-- Witness for claim C9 at a concrete pre-migration row. -/
theorem claim_C9_witness :
    oldRow ∈ [oldRow] ∧
    ∃ e2 ∈ DB.fetch ⟨initEntries (.oldSchema [oldRow]), 8⟩ none none none,
      e2.id = oldRow.id ∧ e2.dt = oldRow.dt ∧ e2.tm = none ∧
      e2.category = oldRow.category ∧ e2.description = oldRow.description ∧
      e2.amount = oldRow.amount :=
  ⟨by simp, claim_C9.1 [oldRow] 8 oldRow (by simp)⟩

/-- Claim C10: passing the empty string as dt_from, dt_to or category
behaves exactly like passing no filter, for fetch and hence for totals. -/
theorem claim_C10 (st : Store) (f t c : Option String) :
    DB.fetch st (some "") t c = DB.fetch st none t c ∧
    DB.fetch st f (some "") c = DB.fetch st f none c ∧
    DB.fetch st f t (some "") = DB.fetch st f t none ∧
    DB.totals st (some "") t c = DB.totals st none t c ∧
    DB.totals st f (some "") c = DB.totals st f none c ∧
    DB.totals st f t (some "") = DB.totals st f t none :=
  ⟨fetch_empty_from st t c, fetch_empty_to st f c, fetch_empty_cat st f t,
    by unfold DB.totals; rw [fetch_empty_from],
    by unfold DB.totals; rw [fetch_empty_to],
    by unfold DB.totals; rw [fetch_empty_cat]⟩

/-- Claim C5: by_category returns one row per category present among the
date-filtered rows, pairing it with that category's amount sum, sorted by
category ascending with no duplicates; the category argument is ignored,
and the row sums add up to the all-categories balance of totals. -/
theorem claim_C5 (st : Store) (f t c : Option String) :
    (∀ c2 : Option String,
      DB.by_category st f t c = DB.by_category st f t c2) ∧
    List.Sorted CatLE ((DB.by_category st f t c).map Prod.fst) ∧
    ((DB.by_category st f t c).map Prod.fst).Nodup ∧
    (∀ (c0 : String) (s : Rat),
      (c0, s) ∈ DB.by_category st f t c ↔
        (∃ r ∈ st.rows.filter (fun e => dfPass f e && dtPass t e),
            r.category = c0) ∧
          s = sumAmt ((st.rows.filter
              (fun e => dfPass f e && dtPass t e)).filter
              (fun e => decide (e.category = c0)))) ∧
    ((DB.by_category st f t c).map Prod.snd).sum =
      (DB.totals st f t (some "All")).2.2 := by
  have hby : DB.by_category st f t c =
      (List.insertionSort CatLE
        ((st.rows.filter (fun e => dfPass f e && dtPass t e)).map
          Entry.category).dedup).map
        (fun c2 => (c2, sumAmt ((st.rows.filter
            (fun e => dfPass f e && dtPass t e)).filter
            (fun e => decide (e.category = c2))))) := rfl
  refine ⟨fun c2 => rfl, ?_, ?_, ?_, ?_⟩
  · rw [hby, List.map_map]
    have hm : (Prod.fst ∘ fun c2 => (c2, sumAmt ((st.rows.filter
        (fun e => dfPass f e && dtPass t e)).filter
        (fun e => decide (e.category = c2)))))
        = fun c2 : String => c2 := rfl
    rw [hm]
    have hid : ∀ l : List String, l.map (fun c2 => c2) = l := by
      intro l; simp
    rw [hid]
    haveI : IsTotal String CatLE := ⟨fun a b => strLeB_total a.data b.data⟩
    haveI : IsTrans String CatLE := ⟨fun _ _ _ h1 h2 => strLeB_trans h1 h2⟩
    exact List.sorted_insertionSort CatLE _
  · rw [hby, List.map_map]
    have hid : ∀ l : List String, l.map (fun c2 => c2) = l := by
      intro l; simp
    rw [show (Prod.fst ∘ fun c2 => (c2, sumAmt ((st.rows.filter
        (fun e => dfPass f e && dtPass t e)).filter
        (fun e => decide (e.category = c2)))))
        = fun c2 : String => c2 from rfl, hid]
    exact ((List.perm_insertionSort CatLE _).nodup_iff).mpr
      (List.nodup_dedup _)
  · intro c0 s
    rw [hby, List.mem_map]
    constructor
    · rintro ⟨c2, hc2, heq⟩
      have hc0 : c2 = c0 := congrArg Prod.fst heq
      have hs : sumAmt ((st.rows.filter
          (fun e => dfPass f e && dtPass t e)).filter
          (fun e => decide (e.category = c2))) = s := congrArg Prod.snd heq
      subst hc0
      obtain ⟨r, hr, hrc⟩ := List.mem_map.mp (List.mem_dedup.mp
        ((List.perm_insertionSort CatLE _).mem_iff.mp hc2))
      exact ⟨⟨r, hr, hrc⟩, hs.symm⟩
    · rintro ⟨⟨r, hr, hrc⟩, hs⟩
      refine ⟨c0, ?_, ?_⟩
      · exact (List.perm_insertionSort CatLE _).mem_iff.mpr
          (List.mem_dedup.mpr (List.mem_map.mpr ⟨r, hr, hrc⟩))
      · exact Prod.ext rfl hs.symm
  · rw [hby, List.map_map]
    rw [show (Prod.snd ∘ fun c2 => (c2, sumAmt ((st.rows.filter
        (fun e => dfPass f e && dtPass t e)).filter
        (fun e => decide (e.category = c2)))))
        = fun c2 => sumAmt ((st.rows.filter
            (fun e => dfPass f e && dtPass t e)).filter
            (fun e => decide (e.category = c2))) from rfl]
    rw [((List.perm_insertionSort CatLE
      ((st.rows.filter (fun e => dfPass f e && dtPass t e)).map
        Entry.category).dedup).map _).sum_eq]
    rw [sum_catGroups _ _ (List.nodup_dedup _)
      (fun r hr => List.mem_dedup.mpr (List.mem_map.mpr ⟨r, hr, rfl⟩))]
    rw [totals_balance st f t (some "All")]
    unfold DB.fetch
    rw [show st.rows.filter (keepRow f t (some "All")) =
        st.rows.filter (fun e => dfPass f e && dtPass t e) from
      List.filter_congr (fun e _ => by simp [keepRow, catPass])]
    exact (((List.perm_insertionSort RowLE _).map Entry.amount).sum_eq).symm

/-- A text float(text) rejects has no finite parse either. -/
theorem parsePyFloat_none_of_pyFloat_none {s : String}
    (h : pyFloat s = none) : parsePyFloat s = none := by
  unfold parsePyFloat; rw [h]

/-- Claim C6, as stated, is false on the code: the amount text "inf" does
not parse as a finite decimal number, yet float("inf") succeeds, so
_parse_amount raises no ValueError, on_add signals no InvalidInput, and
db.add inserts a row (a REAL column stores the infinity) — the store is
mutated. -/
theorem claim_C6_counterexample :
    pyFloat "inf" = some PyVal.pinf ∧
    onAddFull emptyStore "2024-01-01" none "Food" "" "inf" =
      AddOutcome.insertedInf false := by
  constructor
  · decide
  · decide

/-- Claim C6 (amended): an amount string that Python float() rejects makes
on_add and on_update signal the invalid-amount error and perform no
database mutation, so the caller keeps the same store and every later
fetch is unchanged; strings float() accepts are passed through to the
database even when the parsed value is not finite. -/
theorem claim_C6_amended (st : Store) (entry_id : Nat) (dt : String)
    (tm : Option String) (category description amountText : String)
    (hbad : pyFloat amountText = none) :
    onAddFull st dt tm category description amountText =
      .invalidInput invalidAmountMsg ∧
    onUpdateFull st entry_id dt tm category description amountText =
      .invalidInput invalidAmountMsg ∧
    onAdd st dt tm category description amountText =
      .error invalidAmountMsg ∧
    storeAfterAdd st dt tm category description amountText = st ∧
    (∀ f t c, DB.fetch (storeAfterAdd st dt tm category description
        amountText) f t c = DB.fetch st f t c) ∧
    onUpdate st entry_id dt tm category description amountText =
      .error invalidAmountMsg ∧
    storeAfterUpdate st entry_id dt tm category description amountText
      = st := by
  have hbad2 : parsePyFloat amountText = none :=
    parsePyFloat_none_of_pyFloat_none hbad
  have hf1 : onAddFull st dt tm category description amountText =
      .invalidInput invalidAmountMsg := by
    unfold onAddFull; rw [hbad]
  have hf2 : onUpdateFull st entry_id dt tm category description
      amountText = .invalidInput invalidAmountMsg := by
    unfold onUpdateFull; rw [hbad]
  have h1 : onAdd st dt tm category description amountText =
      .error invalidAmountMsg := by
    unfold onAdd; rw [hbad2]
  have h4 : onUpdate st entry_id dt tm category description amountText =
      .error invalidAmountMsg := by
    unfold onUpdate; rw [hbad2]
  have h2 : storeAfterAdd st dt tm category description amountText = st := by
    unfold storeAfterAdd; rw [h1]
  have h5 : storeAfterUpdate st entry_id dt tm category description
      amountText = st := by
    unfold storeAfterUpdate; rw [h4]
  exact ⟨hf1, hf2, h1, h2, fun f t c => by rw [h2], h4, h5⟩

/-- Witness for the amended claim C6 at the concrete rejected input
"abc". -/
theorem claim_C6_witness :
    pyFloat "abc" = none ∧
    (onAddFull emptyStore "2024-01-01" none "Food" "" "abc" =
        .invalidInput invalidAmountMsg ∧
      onUpdateFull emptyStore 9 "2024-01-01" none "Food" "" "abc" =
        .invalidInput invalidAmountMsg ∧
      onAdd emptyStore "2024-01-01" none "Food" "" "abc" =
        .error invalidAmountMsg ∧
      storeAfterAdd emptyStore "2024-01-01" none "Food" "" "abc" =
        emptyStore ∧
      (∀ f t c, DB.fetch (storeAfterAdd emptyStore "2024-01-01" none "Food"
          "" "abc") f t c = DB.fetch emptyStore f t c) ∧
      onUpdate emptyStore 9 "2024-01-01" none "Food" "" "abc" =
        .error invalidAmountMsg ∧
      storeAfterUpdate emptyStore 9 "2024-01-01" none "Food" "" "abc" =
        emptyStore) :=
  ⟨by decide,
    claim_C6_amended emptyStore 9 "2024-01-01" none "Food" "" "abc"
      (by decide)⟩

/-- Claim C7, as stated, is false on the code: neither DB.add nor the
on_add boundary validates date or category, so adding with an empty date
and an empty category (and a well-formed amount) signals no error and
writes a row. -/
theorem claim_C7_counterexample :
    isOkB (onAdd emptyStore "" none "" "" "1") = true ∧
    (storeAfterAdd emptyStore "" none "" "" "1").rows.length = 1 := by
  constructor
  · decide
  · decide

/-- Claim C7 (amended): add and update do not validate date or category;
with any parseable amount text they complete without error — even with an
empty date and an empty category — and perform the corresponding write.
Only a failed amount parse is rejected at this boundary. -/
theorem claim_C7_amended (st : Store) (entry_id : Nat) (tm : Option String)
    (description amountText : String) (v : Rat)
    (hok : parsePyFloat amountText = some v) :
    onAdd st "" tm "" description amountText =
      .ok (DB.add st "" tm "" description v) ∧
    onUpdate st entry_id "" tm "" description amountText =
      .ok (DB.update st entry_id "" tm "" description v) := by
  constructor
  · unfold onAdd; rw [hok]
  · unfold onUpdate; rw [hok]

/-- Witness for the amended claim C7 at the parseable amount "1". -/
theorem claim_C7_witness :
    parsePyFloat "1" = some 1 ∧
    (onAdd emptyStore "" none "" "" "1" =
        .ok (DB.add emptyStore "" none "" "" 1) ∧
      onUpdate emptyStore 3 "" none "" "" "1" =
        .ok (DB.update emptyStore 3 "" none "" "" 1)) :=
  ⟨by decide, claim_C7_amended emptyStore 3 none "" "1" 1 (by decide)⟩
